import Mathlib

/-!
Verification of the portal lifecycle of the xy-portal Obsidian plugin
(src/main.ts).  The plugin text model is embedded shallowly:

* a document is a list of lines, a line is a list of characters
  (the editors getValue/split on newline view of the buffer);
* editor positions {line, ch} become the Pos structure, with ch counted
  in characters (the TypeScript code counts UTF-16 units; every position
  in the modelled flows is produced and consumed in the same unit, so
  the two views are isomorphic on the modelled runs);
* JavaScript string primitives (substring, lastIndexOf, trim, split,
  includes, startsWith) are reproduced on character lists, including
  clamping and argument swapping;
* the two regular expressions of the source (the door-marker pattern
  emoji\[[^\]]+\] and the comment-stripping patterns) are reproduced by
  explicit leftmost-match scanners;
* Date.now(), Math.random() and new Date().toLocaleTimeString() are
  nondeterministic inputs; they become explicit parameters (freshId,
  timestamp, and the numeric/character draws of the id generators).

Each claim theorem carries the claim id in its doc comment.
-/

namespace XYPortal

/-- Editor position, zero based, as in the Obsidian Editor API. -/
structure Pos where
  line : Nat
  ch : Nat
deriving DecidableEq

/-- A document line. -/
abbrev Line := List Char

/-- A document: the full text split on newline, as editor.getValue().split. -/
abbrev Doc := List Line

/-- Whitespace test covering the characters relevant to the modelled flows
(space, tab, newline, carriage return), as stripped by String.prototype.trim. -/
def isWsChar (c : Char) : Bool :=
  c = ' ' || c = '\t' || c = '\n' || c = '\r'

/-- JavaScript String.prototype.trim on a character list. -/
def jsTrim (s : List Char) : List Char :=
  ((s.dropWhile isWsChar).reverse.dropWhile isWsChar).reverse

/-- JavaScript two-argument substring: clamps and swaps its arguments. -/
def jsSubstring (s : List Char) (a b : Nat) : List Char :=
  (s.take (max a b)).drop (min a b)

/-- Split a character list at every newline, as String.prototype.split with
separator newline: the result always has at least one (possibly empty) part. -/
def splitLines : List Char → List Line
  | [] => [[]]
  | c :: rest =>
    if c = '\n' then [] :: splitLines rest
    else
      match splitLines rest with
      | [] => [[c]]
      | l :: ls => (c :: l) :: ls

/-- Join lines with newline separators, as Array.prototype.join with newline. -/
def joinLines : List Line → List Char
  | [] => []
  | [l] => l
  | l :: ls => l ++ '\n' :: joinLines ls

/-- Line n of a document; the editor returns the empty string outside range. -/
def getLineD (doc : Doc) (n : Nat) : Line := doc.getD n []

/-- Model of editor.setLine n text: the replacement text may contain newlines,
in which case it occupies several buffer lines. -/
def setLineAt (doc : Doc) (n : Nat) (text : List Char) : Doc :=
  doc.take n ++ splitLines text ++ doc.drop (n + 1)

/-- Model of editor.replaceRange text from to (from ≤ to, same as the
source uses it): splice text between the two positions. -/
def replaceRange (doc : Doc) (text : List Char) (f t : Pos) : Doc :=
  doc.take f.line
    ++ splitLines ((getLineD doc f.line).take f.ch ++ text ++ (getLineD doc t.line).drop t.ch)
    ++ doc.drop (t.line + 1)

/-- Door marker text: emoji immediately followed by the id in square brackets,
as the template literal in startPortalSession (main.ts line 1618). -/
def portalMarker (emoji id : List Char) : List Char :=
  emoji ++ '[' :: (id ++ [']'])

/-- Match of the door-marker regular expression emoji\[[^\]]+\] at position 0
of s: emoji, an opening bracket, one or more non-bracket characters taken
greedily, then a closing bracket.  Returns the match length. -/
def markerMatchLen (emoji : List Char) (s : List Char) : Option Nat :=
  if emoji.isPrefixOf s then
    match s.drop emoji.length with
    | '[' :: rest =>
      let run := rest.takeWhile (fun c => c ≠ ']')
      if run.length = 0 then none
      else
        match rest.drop run.length with
        | ']' :: _ => some (emoji.length + 2 + run.length)
        | _ => none
    | _ => none
  else none

/-- Leftmost match of the door-marker pattern in s, as String.prototype.match
with a non-global non-anchored regular expression. -/
def firstMarkerMatchLen (emoji : List Char) (s : List Char) : Option Nat :=
  match s with
  | [] => none
  | _ :: rest =>
    match markerMatchLen emoji s with
    | some n => some n
    | none => firstMarkerMatchLen emoji rest

/-- Marker length with the fallback of the source: when the pattern does not
match, the code falls back to the emoji length alone (main.ts lines 1678,
1698, 1707, 1904). -/
def portalMarkerLength (emoji : List Char) (s : List Char) : Nat :=
  (firstMarkerMatchLen emoji s).getD emoji.length

/-- Content extractor, from extractPortalContent (main.ts lines 1691-1720):
single-line spans are a substring of the marker line; multi-line spans are
the marker-line tail, the full intervening lines, and the cursor-line head. -/
def extractPortalContent (emoji : List Char) (doc : Doc) (pp cur : Pos) : List Char :=
  if cur.line = pp.line then
    let line := getLineD doc pp.line
    let mlen := portalMarkerLength emoji (line.drop pp.ch)
    jsSubstring line (pp.ch + mlen) cur.ch
  else
    let firstLine := getLineD doc pp.line
    let mlen := portalMarkerLength emoji (firstLine.drop pp.ch)
    let headPart := firstLine.drop (pp.ch + mlen) ++ ['\n']
    let mids := ((List.range' (pp.line + 1) (cur.line - (pp.line + 1))).map
      (fun i => getLineD doc i ++ ['\n'])).flatten
    let tailPart := if pp.line < cur.line then (getLineD doc cur.line).take cur.ch else []
    headPart ++ mids ++ tailPart

/-- Header key of an annotation entry: the unique substring the reconciler
and the lookup scan for (main.ts lines 1751 and 1938). -/
def sidenoteHeader (id : List Char) : List Char :=
  "> [!sidenote] Portal ".data ++ id

/-- Title line of a callout entry, with the bullet and timestamp suffix
(main.ts line 1771). -/
def calloutTitle (id ts : List Char) : List Char :=
  sidenoteHeader id ++ " • ".data ++ ts

/-- Lines of a fresh callout entry: title line, then every content line
prefixed with quote-space (main.ts lines 1770-1773). -/
def calloutLines (id c ts : List Char) : List Line :=
  calloutTitle id ts :: (splitLines c).map (fun l => "> ".data ++ l)

/-- Span end of an existing callout, from the scan at main.ts lines 1753-1763:
every following line that starts with the quote character or is blank belongs
to the span; the span ends before the first other line, or at end of file. -/
def dropCalloutTail : Doc → Doc
  | [] => []
  | l :: rest =>
    if l.head? = some '>' ∨ jsTrim l = [] then dropCalloutTail rest
    else l :: rest

/-- Replace branch of addToPortalsSectionAsCallout: find the first line
containing the header key and splice the new callout lines over the span;
none when no line contains the key (main.ts lines 1750-1777). -/
def upsertCallout (id c ts : List Char) : Doc → Option Doc
  | [] => none
  | l :: rest =>
    if sidenoteHeader id <:+: l then
      some (calloutLines id c ts ++ dropCalloutTail rest)
    else
      (upsertCallout id c ts rest).map (fun d => l :: d)

/-- Append branch when a Portals section header exists: splice a blank line,
the callout lines and a blank line right after it (main.ts lines 1789-1790). -/
def insertAfterSection (c ts id : List Char) : Doc → Option Doc
  | [] => none
  | l :: rest =>
    if jsTrim l = "## Portals".data then
      some (l :: [] :: (calloutLines id c ts ++ [] :: rest))
    else
      (insertAfterSection c ts id rest).map (fun d => l :: d)

/-- Annotation store reconciler, from addToPortalsSectionAsCallout
(main.ts lines 1742-1803): update an existing entry in place, otherwise
append under the Portals section, creating that section at the end of the
document when absent. -/
def addToPortalsSectionAsCallout (doc : Doc) (id c ts : List Char) : Doc :=
  match upsertCallout id c ts doc with
  | some d => d
  | none =>
    match insertAfterSection c ts id doc with
    | some d => d
    | none => doc ++ [] :: "## Portals".data :: [] :: (calloutLines id c ts ++ [[]])

/-- Lines following the first line that contains the header key
(main.ts lines 1936-1942). -/
def findCalloutTail (id : List Char) : Doc → Option Doc
  | [] => none
  | l :: rest =>
    if sidenoteHeader id <:+: l then some rest
    else findCalloutTail id rest

/-- Content scan of getYspaceContent (main.ts lines 1947-1956): take lines
starting with quote-space stripped of that prefix, skip blank lines and keep
scanning, stop at the first other line. -/
def collectCallout : Doc → List Line
  | [] => []
  | l :: rest =>
    if "> ".data.isPrefixOf l then l.drop 2 :: collectCallout rest
    else if jsTrim l = [] then collectCallout rest
    else []

/-- Annotation lookup, from getYspaceContent (main.ts lines 1931-1959):
none when no line contains the header key, otherwise the collected content
joined with newlines and trimmed. -/
def getYspaceContent (doc : Doc) (id : List Char) : Option (List Char) :=
  (findCalloutTail id doc).map (fun t => jsTrim (joinLines (collectCallout t)))

/-- Removal of the first comment opener and any following whitespace, as the
replace of the pattern open-comment-then-whitespace in
cleanupCommentedPortalContent (main.ts line 1730). -/
def dropFirstCommentOpen : List Char → List Char
  | [] => []
  | c :: rest =>
    if "<!--".data.isPrefixOf (c :: rest) then ((c :: rest).drop 4).dropWhile isWsChar
    else c :: dropFirstCommentOpen rest

/-- Greedy match length, at position 0, of the pattern
whitespace-then-close-comment; backtracks from the longest whitespace run. -/
def wsCloseTry (s : List Char) : Nat → Option Nat
  | 0 => if "-->".data.isPrefixOf s then some 3 else none
  | k + 1 =>
    if "-->".data.isPrefixOf (s.drop (k + 1)) then some (k + 1 + 3)
    else wsCloseTry s k

/-- Match length at position 0 of the close-comment pattern of main.ts
line 1730, with its greedy leading whitespace. -/
def wsCloseMatchLen (s : List Char) : Option Nat :=
  wsCloseTry s (s.takeWhile isWsChar).length

/-- Removal of the leftmost match of whitespace-then-close-comment. -/
def dropFirstCommentClose : List Char → List Char
  | [] => []
  | c :: rest =>
    match wsCloseMatchLen (c :: rest) with
    | some n => (c :: rest).drop n
    | none => c :: dropFirstCommentClose rest

/-- Decision of the filter in cleanupCommentedPortalContent (main.ts lines
1727-1735): a trimmed comment line whose uncommented text mentions the block
id as a block reference or as Portal id is removed. -/
def isRelatedComment (blockId : List Char) (l : Line) : Bool :=
  if "<!--".data.isPrefixOf (jsTrim l) ∧ "-->".data.isSuffixOf (jsTrim l) then
    let un := dropFirstCommentClose (dropFirstCommentOpen l)
    ('^' :: blockId <:+: un) ∨ ("Portal ".data ++ blockId <:+: un)
  else false

/-- Cleanup pass of endPortalSession, from cleanupCommentedPortalContent
(main.ts lines 1722-1740). -/
def cleanupCommentedPortalContent (doc : Doc) (blockId : List Char) : Doc :=
  doc.filter (fun l => !isRelatedComment blockId l)

/-- Session commit, from endPortalSession (main.ts lines 1640-1689): extract
the content between marker and cursor; when nonempty after trimming, replace
the span with the bare marker, run the comment cleanup and reconcile the
trimmed content into the store; when empty, delete the marker.  freshId
stands for the awaited generateObsidianBlockId draw and ts for the wall
clock; both are nondeterministic inputs of the source. -/
def endPortalSession (emoji : List Char) (doc : Doc) (portalPos : Pos)
    (portalId : List Char) (cur : Pos) (freshId ts : List Char) : Doc :=
  let content := extractPortalContent emoji doc portalPos cur
  if jsTrim content = [] then
    let line := getLineD doc portalPos.line
    let mlen := portalMarkerLength emoji (line.drop portalPos.ch)
    replaceRange doc [] portalPos ⟨portalPos.line, portalPos.ch + mlen⟩
  else
    let blockId := if portalId = [] ∨ portalId = "new".data then freshId else portalId
    let doc1 := replaceRange doc (portalMarker emoji blockId) portalPos cur
    let doc2 := cleanupCommentedPortalContent doc1 blockId
    addToPortalsSectionAsCallout doc2 blockId (jsTrim content) ts

/-- Active portal session, the transient state owned by the plugin
(interface ActivePortal, main.ts lines 21-29; isActive is constant true). -/
structure Session where
  startPos : Pos
  portalPos : Pos
  portalId : List Char
deriving DecidableEq

/-- Session opening, from startPortalSession (main.ts lines 1602-1629):
replace the typed trigger span with the door marker, move the cursor to just
after the marker and record the session.  Returns the updated document, the
new cursor and the session object. -/
def startPortalSession (emoji : List Char) (doc : Doc) (cursor : Pos)
    (triggerPos : Nat) (portalId : List Char) : Doc × Pos × Session :=
  let line := getLineD doc cursor.line
  let newLine := line.take triggerPos ++ portalMarker emoji portalId ++ line.drop cursor.ch
  let doc' := setLineAt doc cursor.line newLine
  let cur' : Pos := ⟨cursor.line, triggerPos + (portalMarker emoji portalId).length⟩
  (doc', cur', ⟨cursor, ⟨cursor.line, triggerPos⟩, portalId⟩)

/-- JavaScript String.prototype.lastIndexOf with a from index already
clamped below: the largest start position at most k where pat occurs. -/
def lastOccurWithin (s pat : List Char) : Nat → Option Nat
  | 0 => if pat.isPrefixOf s then some 0 else none
  | k + 1 =>
    if pat.isPrefixOf (s.drop (k + 1)) then some (k + 1)
    else lastOccurWithin s pat k

/-- JavaScript lastIndexOf: the from index is clamped into the string. -/
def jsLastIndexOf (s pat : List Char) (fromIdx : Nat) : Option Nat :=
  lastOccurWithin s pat (min fromIdx s.length)

/-- Polling trigger detector, from checkForPortalTrigger (main.ts lines
1529-1540): the last occurrence of the trigger starting at or before the
character preceding the cursor must end exactly at the cursor.  Returns the
trigger start position when it fires.  A cursor at column 0 gives the same
clamped search as the JavaScript negative from index. -/
def checkForPortalTrigger (trigger line : List Char) (ch : Nat) : Option Nat :=
  match jsLastIndexOf line trigger (ch - 1) with
  | some p => if p + trigger.length = ch then some p else none
  | none => none

/-- Keystroke-path detector, from checkAndStartPortal (main.ts lines
1587-1600): the characters immediately before the cursor must equal the
trigger.  Returns the trigger start position when it fires. -/
def checkAndStartPortal (trigger line : List Char) (ch : Nat) : Option Nat :=
  if trigger.length ≤ ch ∧ jsSubstring line (ch - trigger.length) ch = trigger then
    some (ch - trigger.length)
  else none

/-- Result of opening an existing portal for revision, from
openPortalForEditing (main.ts lines 1890-1929): the updated document, the
session now active (none on failure) and the notice text shown. -/
structure EditOpenResult where
  doc : Doc
  activePortal : Option Session
  notice : List Char
deriving DecidableEq

/-- Edit re-entry, from openPortalForEditing (main.ts lines 1890-1929): look
the content up by id; on a missing or empty result (the source tests
falsiness, so an empty string also fails) notify and change nothing;
otherwise splice the content inline between trigger pairs and activate a
session reusing the id.  The inSession argument is the activePortal at call
time, which the source leaves untouched on failure. -/
def openPortalForEditing (emoji : List Char) (doc : Doc) (lineNum emojiIndex : Nat)
    (portalId : List Char) (inSession : Option Session) : EditOpenResult :=
  match getYspaceContent doc portalId with
  | none => ⟨doc, inSession, "Portal ".data ++ portalId ++ " content not found".data⟩
  | some c =>
    if c = [] then ⟨doc, inSession, "Portal ".data ++ portalId ++ " content not found".data⟩
    else
      let line := getLineD doc lineNum
      let beforeEmoji := line.take emojiIndex
      let mlen := portalMarkerLength emoji (line.drop emojiIndex)
      let afterEmoji := line.drop (emojiIndex + mlen)
      let editable := beforeEmoji ++ "|| ".data ++ c ++ " ||".data ++ afterEmoji
      let doc' := setLineAt doc lineNum editable
      ⟨doc', some ⟨⟨lineNum, emojiIndex + 3⟩, ⟨lineNum, emojiIndex⟩, portalId⟩,
        "Editing Portal ".data ++ portalId⟩

/-- Base-36 digit character, as Number.prototype.toString with radix 36. -/
def digitChar36 (d : Nat) : Char :=
  if d < 10 then Char.ofNat (48 + d) else Char.ofNat (87 + d)

/-- Base-36 rendering of a natural number, most significant digit first,
as Number.prototype.toString with radix 36 on a nonnegative integer. -/
def toBase36 (n : Nat) : List Char :=
  if n = 0 then ['0'] else ((Nat.digits 36 n).map digitChar36).reverse

/-- Identifier generator, from generateId (main.ts lines 2004-2010): the
timestamp in base 36, a hyphen, then the random suffix drawn from
Math.random().toString(36).substring(2, 5).  The timestamp and the suffix
are the nondeterministic inputs. -/
def generateId (now : Nat) (rand : List Char) : List Char :=
  toBase36 now ++ '-' :: rand

/-- A batch of identifier generations in one document session: one generateId
call per (timestamp, random suffix) draw. -/
def generateIds (draws : List (Nat × List Char)) : List (List Char) :=
  draws.map (fun d => generateId d.1 d.2)

/-- Plugin state touched by the keystroke and polling handlers: the text
buffer, the single activePortal variable, the key sequence accumulator
(main.ts lines 33-38), and the number of checkAndStartPortal calls that
handleKeyDown has scheduled through setTimeout (main.ts lines 1565-1567)
and that have not fired yet. -/
structure MState where
  doc : Doc
  activePortal : Option Session
  keySeq : List Char
  pending : Nat
deriving DecidableEq

/-- Events of the modelled event loop.  pollTick is a firing of the 500ms
interval of setupEditorListener; keyDown is one keydown dispatch of
handleKeyDown, which on a trigger-completing pipe key only SCHEDULES a
deferred checkAndStartPortal (the activePortal guard of main.ts line 1563
is checked at schedule time); deferredCheck is the later firing of one such
scheduled 10ms setTimeout callback, which runs checkAndStartPortal and
possibly startPortalSession (main.ts lines 1587-1611) with no activePortal
guard at all, reading the document and cursor as they are at fire time;
seqTimeout is an expiry of the 200ms partial-trigger timer.  Arbitrary
events may occur between scheduling and firing, so every interleaving of
the source is expressible.  Cursor position, fresh id draw and timestamp
are host inputs carried by the event. -/
inductive PEvent where
  | pollTick (cursor : Pos) (freshId : List Char)
  | keyDown (key : String) (cursor : Pos) (freshId ts : List Char)
  | deferredCheck (cursor : Pos) (freshId : List Char)
  | seqTimeout
deriving DecidableEq

/-- Modifier keys ignored by the sequence reset (main.ts line 1577). -/
def modifierKeys : List String := ["Shift", "Control", "Alt", "Meta"]

/-- One event-loop turn, combining setupEditorListener (main.ts lines
1510-1527, with its activePortal guard), handleKeyDown (lines 1542-1585,
whose activePortal guard is applied when scheduling the deferred check, not
when the check later runs), the unguarded deferred checkAndStartPortal
(lines 1587-1611, a deferredCheck event only fires when one is pending) and
the commit path. -/
def stepEvent (trigger emoji : List Char) (exitKey : String) (s : MState)
    (e : PEvent) : MState :=
  match e with
  | .pollTick cur freshId =>
    if s.activePortal.isSome then s
    else
      match checkForPortalTrigger trigger (getLineD s.doc cur.line) cur.ch with
      | some tp =>
        let r := startPortalSession emoji s.doc cur tp freshId
        ⟨r.1, some r.2.2, s.keySeq, s.pending⟩
      | none => s
  | .keyDown k cur freshId ts =>
    match s.activePortal with
    | some sess =>
      if k = exitKey then
        ⟨endPortalSession emoji s.doc sess.portalPos sess.portalId cur freshId ts,
          none, s.keySeq, s.pending⟩
      else if k = "|" then ⟨s.doc, s.activePortal, s.keySeq ++ ['|'], s.pending⟩
      else if k ∈ modifierKeys then s
      else ⟨s.doc, s.activePortal, [], s.pending⟩
    | none =>
      if k = "|" then
        let seq' := s.keySeq ++ ['|']
        if trigger.isSuffixOf seq' then ⟨s.doc, none, seq', s.pending + 1⟩
        else ⟨s.doc, none, seq', s.pending⟩
      else if k ∈ modifierKeys then s
      else ⟨s.doc, none, [], s.pending⟩
  | .deferredCheck cur freshId =>
    if s.pending = 0 then s
    else
      match checkAndStartPortal trigger (getLineD s.doc cur.line) cur.ch with
      | some tp =>
        let r := startPortalSession emoji s.doc cur tp freshId
        ⟨r.1, some r.2.2, s.keySeq, s.pending - 1⟩
      | none => ⟨s.doc, s.activePortal, s.keySeq, s.pending - 1⟩
  | .seqTimeout => ⟨s.doc, s.activePortal, [], s.pending⟩

/-- Run a sequence of events. -/
def runEvents (trigger emoji : List Char) (exitKey : String) (s : MState)
    (es : List PEvent) : MState :=
  es.foldl (stepEvent trigger emoji exitKey) s

/-- Number of live sessions in a state: the activePortal variable holds zero
or one session. -/
def sessionCount (s : MState) : Nat :=
  match s.activePortal with
  | none => 0
  | some _ => 1

/-- Typing model: insert text at the cursor with replaceRange and advance the
cursor to the end of the inserted text. -/
def typeText (doc : Doc) (cur : Pos) (text : List Char) : Doc × Pos :=
  let parts := splitLines text
  let doc' := replaceRange doc text cur cur
  let cur' : Pos :=
    if parts.length = 1 then ⟨cur.line, cur.ch + text.length⟩
    else ⟨cur.line + parts.length - 1, ((parts.getLastD []).length)⟩
  (doc', cur')

/-! Helper lemmas about the string primitives. -/

theorem splitLines_ne_nil (s : List Char) : splitLines s ≠ [] := by
  induction s with
  | nil => simp [splitLines]
  | cons c rest ih =>
    simp only [splitLines]
    split
    · simp
    · match h : splitLines rest with
      | [] => simp
      | l :: ls => simp

theorem splitLines_no_nl (s : List Char) (h : '\n' ∉ s) : splitLines s = [s] := by
  induction s with
  | nil => rfl
  | cons c rest ih =>
    simp only [List.mem_cons, not_or] at h
    have hc : c ≠ '\n' := fun e => h.1 e.symm
    simp only [splitLines, if_neg hc]
    rw [ih h.2]

theorem joinLines_splitLines (s : List Char) : joinLines (splitLines s) = s := by
  induction s with
  | nil => rfl
  | cons c rest ih =>
    simp only [splitLines]
    by_cases hc : c = '\n'
    · subst hc
      simp only [if_pos rfl]
      match h : splitLines rest with
      | [] => exact absurd h (splitLines_ne_nil rest)
      | l :: ls =>
        rw [h] at ih
        simp [joinLines, ih]
    · simp only [if_neg hc]
      match h : splitLines rest with
      | [] => exact absurd h (splitLines_ne_nil rest)
      | [l] =>
        rw [h] at ih
        simpa [joinLines] using ih
      | l :: l' :: ls =>
        rw [h] at ih
        simpa [joinLines] using ih

theorem dropWhile_eq_self_of_head {p : Char → Bool} {l : List Char}
    (h : ∀ a, l.head? = some a → p a = false) : l.dropWhile p = l := by
  cases l with
  | nil => rfl
  | cons x t =>
    have := h x rfl
    simp [List.dropWhile_cons, this]

theorem dropWhile_dropWhile (p : Char → Bool) (l : List Char) :
    (l.dropWhile p).dropWhile p = l.dropWhile p := by
  apply dropWhile_eq_self_of_head
  intro a ha
  have := List.head?_dropWhile_not p l
  rw [ha] at this
  exact this

theorem jsTrim_idem (s : List Char) : jsTrim (jsTrim s) = jsTrim s := by
  unfold jsTrim
  set u := s.dropWhile isWsChar with hu
  set v := u.reverse.dropWhile isWsChar with hv
  have hstep1 : v.reverse.dropWhile isWsChar = v.reverse := by
    apply dropWhile_eq_self_of_head
    intro a ha
    have hpre : v.reverse <+: u := by
      have hsuf : v <:+ u.reverse := List.dropWhile_suffix _
      have := List.reverse_prefix.mpr hsuf
      simpa using this
    obtain ⟨t, ht⟩ := hpre
    have hau : u.head? = some a := by
      rw [← ht, List.head?_append, ha]
      rfl
    have := List.head?_dropWhile_not isWsChar s
    rw [← hu] at this
    rw [hau] at this
    exact this
  rw [hstep1, List.reverse_reverse, hv, dropWhile_dropWhile]

theorem getD_append_cons (pre : Doc) (x : Line) (post : Doc) :
    (pre ++ x :: post).getD pre.length [] = x := by
  induction pre with
  | nil => rfl
  | cons a t ih => simpa using ih

/-! Marker pattern lemmas. -/

theorem portalMarker_ne_nil (emoji id : List Char) : portalMarker emoji id ≠ [] := by
  simp [portalMarker]

theorem portalMarker_append_norm (emoji id rest : List Char) :
    portalMarker emoji id ++ rest = emoji ++ '[' :: (id ++ ']' :: rest) := by
  simp [portalMarker]

theorem markerMatchLen_marker (emoji id rest : List Char) (hid : id ≠ [])
    (hnb : ']' ∉ id) :
    markerMatchLen emoji (portalMarker emoji id ++ rest) =
      some (portalMarker emoji id).length := by
  rw [portalMarker_append_norm]
  have hpre : emoji.isPrefixOf (emoji ++ '[' :: (id ++ ']' :: rest)) :=
    List.isPrefixOf_iff_prefix.mpr (List.prefix_append _ _)
  have hdrop : (emoji ++ '[' :: (id ++ ']' :: rest)).drop emoji.length =
      '[' :: (id ++ ']' :: rest) := List.drop_left _ _
  have htake : (id ++ ']' :: rest).takeWhile (fun c => decide (c ≠ ']')) = id := by
    rw [List.takeWhile_append_of_pos]
    · rw [List.takeWhile_cons]
      simp
    · intro a ha
      simp only [decide_eq_true_eq]
      intro e
      exact hnb (e ▸ ha)
  have hdrop2 : (id ++ ']' :: rest).drop id.length = ']' :: rest := List.drop_left _ _
  simp only [markerMatchLen, if_pos hpre, hdrop]
  rw [htake]
  rw [if_neg (by simpa using hid)]
  rw [hdrop2]
  simp [portalMarker]
  omega

theorem firstMarkerMatchLen_marker (emoji id rest : List Char) (hid : id ≠ [])
    (hnb : ']' ∉ id) :
    firstMarkerMatchLen emoji (portalMarker emoji id ++ rest) =
      some (portalMarker emoji id).length := by
  have hne : portalMarker emoji id ++ rest ≠ [] := by
    simp [portalMarker]
  match hs : portalMarker emoji id ++ rest with
  | [] => exact absurd hs hne
  | c :: t =>
    rw [firstMarkerMatchLen, ← hs, markerMatchLen_marker emoji id rest hid hnb]

theorem portalMarkerLength_marker (emoji id rest : List Char) (hid : id ≠ [])
    (hnb : ']' ∉ id) :
    portalMarkerLength emoji (portalMarker emoji id ++ rest) =
      (portalMarker emoji id).length := by
  rw [portalMarkerLength, firstMarkerMatchLen_marker emoji id rest hid hnb]
  rfl

/-! Trigger detector lemmas. -/

theorem lastOccurWithin_isPrefix {s pat : List Char} :
    ∀ {k p : Nat}, lastOccurWithin s pat k = some p → pat <+: s.drop p := by
  intro k
  induction k with
  | zero =>
    intro p h
    simp only [lastOccurWithin] at h
    split at h
    · cases h
      simpa using List.isPrefixOf_iff_prefix.mp (by assumption)
    · cases h
  | succ k ih =>
    intro p h
    simp only [lastOccurWithin] at h
    split at h
    · cases h
      exact List.isPrefixOf_iff_prefix.mp (by assumption)
    · exact ih h

theorem checkForPortalTrigger_sound {trigger line : List Char} {ch p : Nat}
    (h : checkForPortalTrigger trigger line ch = some p) :
    trigger.length ≤ ch ∧ p = ch - trigger.length ∧
      trigger <+: line.drop (ch - trigger.length) := by
  unfold checkForPortalTrigger at h
  match hj : jsLastIndexOf line trigger (ch - 1) with
  | none => rw [hj] at h; cases h
  | some q =>
    rw [hj] at h
    change (if q + trigger.length = ch then some q else none) = some p at h
    by_cases hq : q + trigger.length = ch
    · rw [if_pos hq] at h
      have hqp : q = p := by injection h
      subst hqp
      have hpre : trigger <+: line.drop q := lastOccurWithin_isPrefix hj
      refine ⟨by omega, by omega, ?_⟩
      have hqe : q = ch - trigger.length := by omega
      rwa [hqe] at hpre
    · rw [if_neg hq] at h
      cases h

theorem checkAndStartPortal_sound {trigger line : List Char} {ch p : Nat}
    (h : checkAndStartPortal trigger line ch = some p) :
    trigger.length ≤ ch ∧ p = ch - trigger.length ∧
      trigger <+: line.drop (ch - trigger.length) := by
  unfold checkAndStartPortal at h
  split at h
  · cases h
    rename_i hcond
    obtain ⟨hle, hsub⟩ := hcond
    refine ⟨hle, rfl, ?_⟩
    rw [jsSubstring] at hsub
    rw [Nat.max_eq_right (by omega), Nat.min_eq_left (by omega)] at hsub
    rw [List.drop_take] at hsub
    have hp := List.take_prefix (ch - (ch - trigger.length)) (line.drop (ch - trigger.length))
    rwa [hsub] at hp
  · cases h

/-- C6: trigger position discipline.  Both detectors, the polling
checkForPortalTrigger and the keystroke-path checkAndStartPortal, start a
session only when a contiguous occurrence of the configured trigger string
ends exactly at the cursor: whenever either returns a start position, the
cursor column is at least the trigger length, the returned position is
cursor minus trigger length, and the trigger text occurs there.  Occurrences
of the trigger elsewhere on the line therefore never fire. -/
theorem trigger_position_discipline (trigger line : List Char) (ch p : Nat) :
    (checkForPortalTrigger trigger line ch = some p →
      trigger.length ≤ ch ∧ p = ch - trigger.length ∧
        trigger <+: line.drop (ch - trigger.length)) ∧
    (checkAndStartPortal trigger line ch = some p →
      trigger.length ≤ ch ∧ p = ch - trigger.length ∧
        trigger <+: line.drop (ch - trigger.length)) :=
  ⟨fun h => checkForPortalTrigger_sound h, fun h => checkAndStartPortal_sound h⟩

/-- Witness for C6 at the line ab|| with the cursor at column 4. -/
theorem trigger_position_discipline_witness :
    ("||".data.length ≤ 4 ∧ 2 = 4 - "||".data.length ∧
      "||".data <+: "ab||".data.drop (4 - "||".data.length)) ∧
    ("||".data.length ≤ 4 ∧ 2 = 4 - "||".data.length ∧
      "||".data <+: "ab||".data.drop (4 - "||".data.length)) :=
  ⟨(trigger_position_discipline "||".data "ab||".data 4 2).1 (by decide),
   (trigger_position_discipline "||".data "ab||".data 4 2).2 (by decide)⟩

/-- C1 (amended): guarded single-session invariant.  The state holds at
most one live session at any instant (the activePortal variable is a single
option, so every event run keeps the session count at or below one).  Every
event other than an exit-key keydown and a deferred keystroke check leaves
an active session and the document unchanged: in particular the polling
trigger path is guarded, and while a session is active no new deferred
check is ever scheduled (the pending count never grows), which is the
schedule-time guard of handleKeyDown.  A deferred check with nothing
pending is a no-op.  What the original claim adds beyond this is false: the
deferred checkAndStartPortal itself runs unguarded, so a check scheduled
while the machine was idle can fire after a session has started inside the
timeout window and silently overwrite it, which is the counterexample. -/
theorem single_session_guarded_invariant (trigger emoji : List Char)
    (exitKey : String) :
    (∀ (s : MState) (es : List PEvent),
      sessionCount (runEvents trigger emoji exitKey s es) ≤ 1) ∧
    (∀ (s : MState) (e : PEvent) (sess : Session),
      s.activePortal = some sess →
      (∀ k cur f t, e = PEvent.keyDown k cur f t → k ≠ exitKey) →
      (∀ cur f, e ≠ PEvent.deferredCheck cur f) →
      (stepEvent trigger emoji exitKey s e).activePortal = some sess ∧
      (stepEvent trigger emoji exitKey s e).doc = s.doc) ∧
    (∀ (s : MState) (e : PEvent) (sess : Session),
      s.activePortal = some sess →
      (stepEvent trigger emoji exitKey s e).pending ≤ s.pending) ∧
    (∀ (s : MState) (cur : Pos) (f : List Char),
      s.pending = 0 →
      stepEvent trigger emoji exitKey s (PEvent.deferredCheck cur f) = s) := by
  refine ⟨?_, ?_, ?_, ?_⟩
  · intro s es
    cases h : (runEvents trigger emoji exitKey s es).activePortal <;>
      simp [sessionCount, h]
  · intro s e sess hs hk hd
    cases e with
    | pollTick cur f =>
      have hsome : s.activePortal.isSome = true := by rw [hs]; rfl
      simp [stepEvent, hsome, hs]
    | keyDown k cur f t =>
      have hke : k ≠ exitKey := hk k cur f t rfl
      simp only [stepEvent, hs]
      rw [if_neg hke]
      split_ifs <;> simp [hs]
    | deferredCheck cur f => exact absurd rfl (hd cur f)
    | seqTimeout =>
      simp [stepEvent, hs]
  · intro s e sess hs
    cases e with
    | pollTick cur f =>
      have hsome : s.activePortal.isSome = true := by rw [hs]; rfl
      simp [stepEvent, hsome]
    | keyDown k cur f t =>
      simp only [stepEvent, hs]
      split_ifs <;> simp
    | deferredCheck cur f =>
      simp only [stepEvent]
      split_ifs with hp
      · exact Nat.le_refl _
      · match hc : checkAndStartPortal trigger (getLineD s.doc cur.line) cur.ch with
        | some tp => simp [hc]
        | none => simp [hc]
    | seqTimeout => simp [stepEvent]
  · intro s cur f hp
    simp [stepEvent, hp]

/-- Witness for C1: an empty run; a pipe keydown received while a session
is active, which leaves session and document unchanged; the same event not
growing the pending count; and a deferred check firing with nothing
pending, a no-op. -/
theorem single_session_guarded_invariant_witness :
    sessionCount (runEvents "||".data ['🚪'] "Escape" ⟨[[]], none, [], 0⟩ []) ≤ 1 ∧
    ((stepEvent "||".data ['🚪'] "Escape"
        ⟨[[]], some ⟨⟨0, 0⟩, ⟨0, 0⟩, "p".data⟩, [], 0⟩
        (PEvent.keyDown "|" ⟨0, 0⟩ "f".data "t".data)).activePortal =
          some ⟨⟨0, 0⟩, ⟨0, 0⟩, "p".data⟩ ∧
      (stepEvent "||".data ['🚪'] "Escape"
        ⟨[[]], some ⟨⟨0, 0⟩, ⟨0, 0⟩, "p".data⟩, [], 0⟩
        (PEvent.keyDown "|" ⟨0, 0⟩ "f".data "t".data)).doc = [[]]) ∧
    (stepEvent "||".data ['🚪'] "Escape"
        ⟨[[]], some ⟨⟨0, 0⟩, ⟨0, 0⟩, "p".data⟩, [], 0⟩
        (PEvent.keyDown "|" ⟨0, 0⟩ "f".data "t".data)).pending ≤ 0 ∧
    stepEvent "||".data ['🚪'] "Escape" ⟨[[]], none, [], 0⟩
        (PEvent.deferredCheck ⟨0, 0⟩ "f".data) = ⟨[[]], none, [], 0⟩ :=
  ⟨(single_session_guarded_invariant "||".data ['🚪'] "Escape").1
      ⟨[[]], none, [], 0⟩ [],
   (single_session_guarded_invariant "||".data ['🚪'] "Escape").2.1
      ⟨[[]], some ⟨⟨0, 0⟩, ⟨0, 0⟩, "p".data⟩, [], 0⟩
      (PEvent.keyDown "|" ⟨0, 0⟩ "f".data "t".data)
      ⟨⟨0, 0⟩, ⟨0, 0⟩, "p".data⟩ rfl
      (by intro k cur f t he; cases he; decide)
      (by intro cur f he; cases he),
   (single_session_guarded_invariant "||".data ['🚪'] "Escape").2.2.1
      ⟨[[]], some ⟨⟨0, 0⟩, ⟨0, 0⟩, "p".data⟩, [], 0⟩
      (PEvent.keyDown "|" ⟨0, 0⟩ "f".data "t".data)
      ⟨⟨0, 0⟩, ⟨0, 0⟩, "p".data⟩ rfl,
   (single_session_guarded_invariant "||".data ['🚪'] "Escape").2.2.2
      ⟨[[]], none, [], 0⟩ ⟨0, 0⟩ "f".data rfl⟩

/-- C1 counterexample: the claim asserts that a trigger completing while a
session is active starts no new session and leaves the existing session
unchanged, for every sequence of trigger detections and keydown events.
Here two pipe keydowns arrive while the machine is idle and schedule a
deferred check (guarded only at schedule time, main.ts line 1563); before
the 10ms timeout fires, the 500ms poll detects the same trigger and opens
session p1, replacing the trigger with the door marker; the document still
ends in a second trigger pair, and when the deferred check then fires at
the cursor sitting after it, checkAndStartPortal finds the trigger and
startPortalSession overwrites the active session p1 with a new session d1
without any guard: the trigger detection completed while p1 was active and
p1 was silently replaced. -/
theorem single_session_counterexample :
    (runEvents "||".data ['🚪'] "Escape" ⟨["||x||".data], none, [], 0⟩
        [PEvent.keyDown "|" ⟨0, 1⟩ "f1".data "t".data,
         PEvent.keyDown "|" ⟨0, 2⟩ "f2".data "t".data,
         PEvent.pollTick ⟨0, 2⟩ "p1".data]).activePortal =
      some ⟨⟨0, 2⟩, ⟨0, 0⟩, "p1".data⟩ ∧
    (runEvents "||".data ['🚪'] "Escape" ⟨["||x||".data], none, [], 0⟩
        [PEvent.keyDown "|" ⟨0, 1⟩ "f1".data "t".data,
         PEvent.keyDown "|" ⟨0, 2⟩ "f2".data "t".data,
         PEvent.pollTick ⟨0, 2⟩ "p1".data,
         PEvent.deferredCheck ⟨0, 8⟩ "d1".data]).activePortal =
      some ⟨⟨0, 8⟩, ⟨0, 6⟩, "d1".data⟩ ∧
    (⟨⟨0, 8⟩, ⟨0, 6⟩, "d1".data⟩ : Session) ≠ ⟨⟨0, 2⟩, ⟨0, 0⟩, "p1".data⟩ :=
  ⟨by decide, by decide, by decide⟩

/-! Identifier generator lemmas. -/

theorem digitChar36_ne_dash : ∀ d, d < 36 → digitChar36 d ≠ '-' := by decide

theorem digitChar36_injOn :
    ∀ d1, d1 < 36 → ∀ d2, d2 < 36 → digitChar36 d1 = digitChar36 d2 → d1 = d2 := by
  decide

theorem toBase36_ne_dash (n : Nat) : '-' ∉ toBase36 n := by
  unfold toBase36
  split
  · decide
  · intro hmem
    rw [List.mem_reverse] at hmem
    obtain ⟨d, hd, he⟩ := List.mem_map.mp hmem
    exact digitChar36_ne_dash d (Nat.digits_lt_base (by norm_num) hd) he

theorem map_digitChar36_inj :
    ∀ (xs ys : List Nat), (∀ x ∈ xs, x < 36) → (∀ y ∈ ys, y < 36) →
      xs.map digitChar36 = ys.map digitChar36 → xs = ys := by
  intro xs
  induction xs with
  | nil =>
    intro ys _ _ h
    cases ys with
    | nil => rfl
    | cons b t => simp at h
  | cons x xs ih =>
    intro ys hx hy h
    cases ys with
    | nil => simp at h
    | cons b t =>
      simp only [List.map_cons, List.cons.injEq] at h
      have hxb : x = b :=
        digitChar36_injOn x (hx x (by simp)) b (hy b (by simp)) h.1
      have ht : xs = t :=
        ih t (fun a ha => hx a (by simp [ha])) (fun a ha => hy a (by simp [ha])) h.2
      rw [hxb, ht]

theorem ofDigits_single_zero : Nat.ofDigits 36 [0] = 0 := by
  simp [Nat.ofDigits]

theorem toBase36_eq_zero_char {b : Nat} (hb : b ≠ 0)
    (h : ((Nat.digits 36 b).map digitChar36).reverse = ['0']) : False := by
  have hmap : (Nat.digits 36 b).map digitChar36 = ['0'] := by
    have := congrArg List.reverse h
    simpa using this
  cases hd : Nat.digits 36 b with
  | nil => rw [hd] at hmap; simp at hmap
  | cons d t =>
    rw [hd] at hmap
    simp only [List.map_cons, List.cons.injEq, List.map_eq_nil_iff] at hmap
    have hdlt : d < 36 :=
      Nat.digits_lt_base (by norm_num) (hd ▸ List.mem_cons_self d t)
    have hd0 : d = 0 :=
      digitChar36_injOn d hdlt 0 (by norm_num) (by rw [hmap.1]; decide)
    have hofd := Nat.ofDigits_digits 36 b
    rw [hd, hmap.2, hd0] at hofd
    rw [ofDigits_single_zero] at hofd
    exact hb hofd.symm

theorem toBase36_inj {a b : Nat} (h : toBase36 a = toBase36 b) : a = b := by
  by_cases ha : a = 0 <;> by_cases hb : b = 0
  · rw [ha, hb]
  · exfalso
    rw [toBase36, if_pos ha, toBase36, if_neg hb] at h
    exact toBase36_eq_zero_char hb h.symm
  · exfalso
    rw [toBase36, if_neg ha, toBase36, if_pos hb] at h
    exact toBase36_eq_zero_char ha h
  · rw [toBase36, if_neg ha, toBase36, if_neg hb] at h
    have hmap : (Nat.digits 36 a).map digitChar36 = (Nat.digits 36 b).map digitChar36 := by
      have := congrArg List.reverse h
      simpa using this
    have hdig : Nat.digits 36 a = Nat.digits 36 b :=
      map_digitChar36_inj _ _
        (fun x hx => Nat.digits_lt_base (by norm_num) hx)
        (fun y hy => Nat.digits_lt_base (by norm_num) hy) hmap
    have := congrArg (Nat.ofDigits 36) hdig
    rwa [Nat.ofDigits_digits, Nat.ofDigits_digits] at this

theorem append_dash_inj :
    ∀ (a1 a2 r1 r2 : List Char), '-' ∉ a1 → '-' ∉ a2 →
      a1 ++ '-' :: r1 = a2 ++ '-' :: r2 → a1 = a2 ∧ r1 = r2 := by
  intro a1
  induction a1 with
  | nil =>
    intro a2 r1 r2 _ h2 he
    cases a2 with
    | nil => simpa using he
    | cons b t =>
      simp only [List.nil_append, List.cons_append, List.cons.injEq] at he
      exact absurd (he.1 ▸ List.mem_cons_self b t) h2
  | cons x xs ih =>
    intro a2 r1 r2 h1 h2 he
    cases a2 with
    | nil =>
      simp only [List.nil_append, List.cons_append, List.cons.injEq] at he
      exact absurd (he.1 ▸ List.mem_cons_self x xs) h1
    | cons b t =>
      simp only [List.cons_append, List.cons.injEq] at he
      have hx : '-' ∉ xs := fun m => h1 (List.mem_cons_of_mem x m)
      have ht : '-' ∉ t := fun m => h2 (List.mem_cons_of_mem b m)
      have := ih t r1 r2 hx ht he.2
      exact ⟨by rw [he.1, this.1], this.2⟩

/-- C9 (amended): identifier distinctness holds exactly as far as the
nondeterministic draws allow.  generateId is injective in its timestamp and
random-suffix inputs, so any batch of draws with pairwise distinct
(timestamp, suffix) pairs yields pairwise distinct identifiers.  The source
consults neither earlier outputs nor the document, so nothing beyond the
draws themselves prevents a repeat or a collision with an identifier already
present. -/
theorem generateId_injective_claim :
    (∀ (t1 t2 : Nat) (r1 r2 : List Char),
      generateId t1 r1 = generateId t2 r2 → t1 = t2 ∧ r1 = r2) ∧
    (∀ draws : List (Nat × List Char), draws.Nodup → (generateIds draws).Nodup) := by
  have hinj : ∀ (t1 t2 : Nat) (r1 r2 : List Char),
      generateId t1 r1 = generateId t2 r2 → t1 = t2 ∧ r1 = r2 := by
    intro t1 t2 r1 r2 he
    unfold generateId at he
    have h := append_dash_inj _ _ _ _ (toBase36_ne_dash t1) (toBase36_ne_dash t2) he
    exact ⟨toBase36_inj h.1, h.2⟩
  refine ⟨hinj, ?_⟩
  intro draws hnd
  refine List.Nodup.map ?_ hnd
  intro d1 d2 he
  have := hinj d1.1 d2.1 d1.2 d2.2 he
  exact Prod.ext this.1 this.2

/-- Witness for C9: the injectivity applied at equal draws, and a
two-element batch of distinct draws giving distinct identifiers. -/
theorem generateId_injective_claim_witness :
    (0 = 0 ∧ "a".data = "a".data) ∧
      (generateIds [(0, "a".data), (1, "a".data)]).Nodup :=
  ⟨generateId_injective_claim.1 0 0 "a".data "a".data rfl,
   generateId_injective_claim.2 [(0, "a".data), (1, "a".data)] (by decide)⟩

/-- C9 counterexample: the claim promises K distinct identifiers for every
generation batch, but two draws with the same timestamp and the same random
suffix, which nothing in the source rules out, give equal identifiers. -/
theorem identifier_uniqueness_counterexample :
    ¬ (generateIds [(0, "a".data), (0, "a".data)]).Nodup := by decide

/-! Annotation store lemmas. -/

/-- A list of lines none of which contains the header key of the given id. -/
def CleanFor (id : List Char) (ls : Doc) : Prop :=
  ∀ l ∈ ls, ¬ (sidenoteHeader id <:+: l)

/-- Content whose stored lines do not themselves contain the header key. -/
def CleanContent (id c : List Char) : Prop :=
  ∀ l ∈ splitLines c, ¬ (sidenoteHeader id <:+: ("> ".data ++ l))

/-- A tail at which both the span scan and the content scan stop: empty, or
headed by a nonblank line that does not start with the quote character. -/
def StoppedTail : Doc → Prop
  | [] => True
  | l :: _ => l.head? ≠ some '>' ∧ jsTrim l ≠ []

theorem header_isInfix_title (id ts : List Char) :
    sidenoteHeader id <:+: calloutTitle id ts :=
  ((List.prefix_append _ _).trans (List.prefix_append _ _)).isInfix

theorem collectCallout_cons (l : Line) (rest : Doc) :
    collectCallout (l :: rest) =
      if "> ".data.isPrefixOf l then l.drop 2 :: collectCallout rest
      else if jsTrim l = [] then collectCallout rest
      else [] := rfl

theorem upsertCallout_cons (id c ts : List Char) (l : Line) (rest : Doc) :
    upsertCallout id c ts (l :: rest) =
      if sidenoteHeader id <:+: l then
        some (calloutLines id c ts ++ dropCalloutTail rest)
      else (upsertCallout id c ts rest).map (fun d => l :: d) := rfl

theorem insertAfterSection_cons (c ts id : List Char) (l : Line) (rest : Doc) :
    insertAfterSection c ts id (l :: rest) =
      if jsTrim l = "## Portals".data then
        some (l :: [] :: (calloutLines id c ts ++ [] :: rest))
      else (insertAfterSection c ts id rest).map (fun d => l :: d) := rfl

theorem findCalloutTail_cons (id : List Char) (l : Line) (rest : Doc) :
    findCalloutTail id (l :: rest) =
      if sidenoteHeader id <:+: l then some rest
      else findCalloutTail id rest := rfl

theorem quote_isPrefixOf (l : List Char) :
    "> ".data.isPrefixOf ("> ".data ++ l) = true :=
  List.isPrefixOf_iff_prefix.mpr (List.prefix_append _ _)

theorem quote_drop_two (l : List Char) : ("> ".data ++ l).drop 2 = l :=
  List.drop_left' rfl

theorem quote_head_char {l : List Char}
    (h : "> ".data.isPrefixOf l = true) : l.head? = some '>' := by
  obtain ⟨t, ht⟩ := List.isPrefixOf_iff_prefix.mp h
  rw [← ht]
  rfl

theorem collectCallout_map_append (ls : List Line) (rest : Doc) :
    collectCallout (ls.map (fun l => "> ".data ++ l) ++ rest) =
      ls ++ collectCallout rest := by
  induction ls with
  | nil => rfl
  | cons l t ih =>
    rw [List.map_cons, List.cons_append, collectCallout_cons,
      if_pos (quote_isPrefixOf l), quote_drop_two, ih, List.cons_append]

theorem collectCallout_stopped {t : Doc} (h : StoppedTail t) :
    collectCallout t = [] := by
  cases t with
  | nil => rfl
  | cons l rest =>
    obtain ⟨h1, h2⟩ := h
    have hq : "> ".data.isPrefixOf l = false := by
      cases hb : "> ".data.isPrefixOf l
      · rfl
      · exact absurd (quote_head_char hb) h1
    simp [collectCallout, hq, h2]

theorem dropCalloutTail_stopped (post : Doc) : StoppedTail (dropCalloutTail post) := by
  induction post with
  | nil => trivial
  | cons l rest ih =>
    simp only [dropCalloutTail]
    split
    · exact ih
    · rename_i hcond
      push_neg at hcond
      exact hcond

theorem dropCalloutTail_suffix (post : Doc) : dropCalloutTail post <:+ post := by
  induction post with
  | nil => exact List.suffix_refl []
  | cons l rest ih =>
    simp only [dropCalloutTail]
    split
    · exact ih.trans (List.suffix_cons l rest)
    · exact List.suffix_refl _

theorem upsertCallout_eq_none {id c ts : List Char} {doc : Doc}
    (h : CleanFor id doc) : upsertCallout id c ts doc = none := by
  induction doc with
  | nil => rfl
  | cons l rest ih =>
    rw [upsertCallout_cons, if_neg (h l (by simp)),
      ih (fun a ha => h a (by simp [ha]))]
    rfl

theorem upsertCallout_found {id c ts : List Char} (pre : Doc) {m : Line}
    (post : Doc) (hpre : CleanFor id pre) (hm : sidenoteHeader id <:+: m) :
    upsertCallout id c ts (pre ++ m :: post) =
      some (pre ++ (calloutLines id c ts ++ dropCalloutTail post)) := by
  induction pre with
  | nil =>
    rw [List.nil_append, upsertCallout_cons, if_pos hm, List.nil_append]
  | cons a t ih =>
    rw [List.cons_append, upsertCallout_cons, if_neg (hpre a (by simp)),
      ih (fun x hx => hpre x (by simp [hx])), Option.map_some', List.cons_append]

theorem insertAfterSection_eq_none {c ts id : List Char} {doc : Doc}
    (h : ∀ l ∈ doc, jsTrim l ≠ "## Portals".data) :
    insertAfterSection c ts id doc = none := by
  induction doc with
  | nil => rfl
  | cons l rest ih =>
    rw [insertAfterSection_cons, if_neg (h l (by simp)),
      ih (fun a ha => h a (by simp [ha]))]
    rfl

theorem insertAfterSection_found {c ts id : List Char} (pre : Doc) {sec : Line}
    (rest : Doc) (hpre : ∀ l ∈ pre, jsTrim l ≠ "## Portals".data)
    (hsec : jsTrim sec = "## Portals".data) :
    insertAfterSection c ts id (pre ++ sec :: rest) =
      some (pre ++ (sec :: [] :: (calloutLines id c ts ++ [] :: rest))) := by
  induction pre with
  | nil => rw [List.nil_append, insertAfterSection_cons, if_pos hsec, List.nil_append]
  | cons a t ih =>
    rw [List.cons_append, insertAfterSection_cons, if_neg (hpre a (by simp)),
      ih (fun x hx => hpre x (by simp [hx])), Option.map_some', List.cons_append]

theorem findCalloutTail_found {id : List Char} (pre : Doc) {m : Line}
    (post : Doc) (hpre : CleanFor id pre) (hm : sidenoteHeader id <:+: m) :
    findCalloutTail id (pre ++ m :: post) = some post := by
  induction pre with
  | nil => rw [List.nil_append, findCalloutTail_cons, if_pos hm]
  | cons a t ih =>
    rw [List.cons_append, findCalloutTail_cons, if_neg (hpre a (by simp))]
    exact ih (fun x hx => hpre x (by simp [hx]))

theorem findCalloutTail_eq_none {id : List Char} {doc : Doc}
    (h : CleanFor id doc) : findCalloutTail id doc = none := by
  induction doc with
  | nil => rfl
  | cons l rest ih =>
    rw [findCalloutTail_cons, if_neg (h l (by simp))]
    exact ih (fun a ha => h a (by simp [ha]))

theorem calloutLines_cons (id c ts : List Char) (x : Doc) :
    calloutLines id c ts ++ x =
      calloutTitle id ts :: ((splitLines c).map (fun l => "> ".data ++ l) ++ x) := by
  simp [calloutLines]

theorem getYspaceContent_of_shape (id ts c : List Char) (pre tail : Doc)
    (hpre : CleanFor id pre) (htail : collectCallout tail = []) :
    getYspaceContent (pre ++ (calloutLines id c ts ++ tail)) id =
      some (jsTrim c) := by
  rw [calloutLines_cons]
  rw [getYspaceContent, findCalloutTail_found pre _ hpre (header_isInfix_title id ts)]
  rw [Option.map_some']
  rw [collectCallout_map_append, htail, List.append_nil]
  rw [joinLines_splitLines]

theorem countP_header_eq_zero {id : List Char} {ls : Doc} (h : CleanFor id ls) :
    ls.countP (fun l => decide (sidenoteHeader id <:+: l)) = 0 := by
  rw [List.countP_eq_zero]
  intro a ha
  simpa using h a ha

theorem countP_header_shape {id ts c : List Char} {pre tail : Doc}
    (hpre : CleanFor id pre) (hc : CleanContent id c) (htail : CleanFor id tail) :
    (pre ++ (calloutLines id c ts ++ tail)).countP
      (fun l => decide (sidenoteHeader id <:+: l)) = 1 := by
  rw [List.countP_append, List.countP_append]
  rw [countP_header_eq_zero hpre, countP_header_eq_zero htail]
  rw [calloutLines, List.countP_cons]
  have hmap : ((splitLines c).map (fun l => "> ".data ++ l)).countP
      (fun l => decide (sidenoteHeader id <:+: l)) = 0 := by
    rw [List.countP_eq_zero]
    intro a ha
    obtain ⟨l, hl, he⟩ := List.mem_map.mp ha
    simpa [← he] using hc l hl
  rw [hmap]
  simp [header_isInfix_title]

instance (id : List Char) (ls : Doc) : Decidable (CleanFor id ls) :=
  List.decidableBAll _ ls

instance (id c : List Char) : Decidable (CleanContent id c) :=
  List.decidableBAll _ _

theorem sidenoteHeader_length (id : List Char) :
    (sidenoteHeader id).length = 21 + id.length := by
  simp [sidenoteHeader]
  omega

theorem not_header_infix_short {id : List Char} {l : Line} (h : l.length < 21) :
    ¬ (sidenoteHeader id <:+: l) := by
  intro hinf
  have := hinf.length_le
  rw [sidenoteHeader_length] at this
  omega

/-- Store followed by lookup on a document free of the header key and of a
Portals section line: the entry is pushed at the end and reading it back
yields the trim of the stored content. -/
theorem store_then_lookup (doc : Doc) (id c ts : List Char)
    (hclean : CleanFor id doc)
    (hsec : ∀ l ∈ doc, jsTrim l ≠ "## Portals".data) :
    getYspaceContent (addToPortalsSectionAsCallout doc id c ts) id =
      some (jsTrim c) := by
  unfold addToPortalsSectionAsCallout
  rw [upsertCallout_eq_none hclean, insertAfterSection_eq_none hsec]
  have hform : doc ++ [] :: "## Portals".data :: [] :: (calloutLines id c ts ++ [[]]) =
      (doc ++ [[], "## Portals".data, []]) ++ (calloutLines id c ts ++ [[]]) := by
    simp
  rw [hform]
  apply getYspaceContent_of_shape
  · intro l hl
    rcases List.mem_append.mp hl with hd | hx
    · exact hclean l hd
    · have : l.length < 21 := by
        simp only [List.mem_cons, List.not_mem_nil, or_false] at hx
        rcases hx with h1 | h1 | h1 <;> (rw [h1]; decide)
      exact not_header_infix_short this
  · rfl

/-- Membership of the title line in every result of the append paths. -/
theorem title_mem_insertAfterSection {c ts id : List Char} :
    ∀ {doc d : Doc}, insertAfterSection c ts id doc = some d →
      calloutTitle id ts ∈ d := by
  intro doc
  induction doc with
  | nil => intro d h; cases h
  | cons l rest ih =>
    intro d h
    rw [insertAfterSection_cons] at h
    split at h
    · cases h
      simp [calloutLines]
    · match hrec : insertAfterSection c ts id rest with
      | none => rw [hrec] at h; cases h
      | some d' =>
        rw [hrec] at h
        cases h
        exact List.mem_cons_of_mem l (ih hrec)

/-- C10 (amended): lookup normalization.  On a document with no line
containing the header key and no Portals section line, storing content and
looking it up returns exactly the trim of the stored content: each stored
line has its quote-space prefix stripped again; a blank content line is
stored as a lone quote-space line, so interior blank lines of the content
are preserved, not skipped; the blank-line skipping of the scan only crosses
literal blank document lines; and the final trim removes boundary
whitespace only.  Content equal to its own trim is therefore returned
verbatim even when it contains interior blank lines. -/
theorem lookup_normalization (doc : Doc) (id c ts : List Char)
    (hclean : CleanFor id doc)
    (hsec : ∀ l ∈ doc, jsTrim l ≠ "## Portals".data) :
    getYspaceContent (addToPortalsSectionAsCallout doc id c ts) id =
      some (jsTrim c) :=
  store_then_lookup doc id c ts hclean hsec

/-- Witness for C10: a one-line document and a three-line content with an
interior blank line. -/
theorem lookup_normalization_witness :
    getYspaceContent
        (addToPortalsSectionAsCallout ["Doc".data] "p1".data "a\n\nb".data "t".data)
        "p1".data = some (jsTrim "a\n\nb".data) :=
  lookup_normalization ["Doc".data] "p1".data "a\n\nb".data "t".data
    (by decide) (by decide)

/-- C10 counterexample: the claim asserts that stored content containing
interior blank lines is never returned verbatim, but content with an
interior blank line and no boundary whitespace is returned byte-for-byte:
the blank content line is stored as a lone quote-space line, which the scan
keeps as an empty line instead of skipping. -/
theorem lookup_normalization_counterexample :
    getYspaceContent
        (addToPortalsSectionAsCallout ["Doc".data] "p1".data "a\n\nb".data "t".data)
        "p1".data = some "a\n\nb".data := by decide

/-- C7 (amended): reconciler frame property.  When some line contains the
header key, the reconciler replaces the contiguous block that starts at the
first such line and extends through every following line that starts with
the quote character or is blank, stopping at the first other line or at end
of file; every line before the matched line and every line from the stop
line on is preserved byte-for-byte (the remainder is literally a suffix of
the old tail).  This span can absorb a following entry separated only by
blank lines, which is what the counterexample exhibits.  When no line
contains the key, the append paths keep every existing line byte-for-byte
and splice the new entry after the Portals section line, or push the section
and entry at the end when the section is absent. -/
theorem reconciler_frame (id c ts : List Char) :
    (∀ pre m post, CleanFor id pre → sidenoteHeader id <:+: m →
      addToPortalsSectionAsCallout (pre ++ m :: post) id c ts =
        pre ++ (calloutLines id c ts ++ dropCalloutTail post) ∧
      dropCalloutTail post <:+ post) ∧
    (∀ pre sec rest, CleanFor id (pre ++ sec :: rest) →
      (∀ l ∈ pre, jsTrim l ≠ "## Portals".data) →
      jsTrim sec = "## Portals".data →
      addToPortalsSectionAsCallout (pre ++ sec :: rest) id c ts =
        pre ++ (sec :: [] :: (calloutLines id c ts ++ [] :: rest))) ∧
    (∀ doc, CleanFor id doc → (∀ l ∈ doc, jsTrim l ≠ "## Portals".data) →
      addToPortalsSectionAsCallout doc id c ts =
        doc ++ [] :: "## Portals".data :: [] :: (calloutLines id c ts ++ [[]])) := by
  refine ⟨?_, ?_, ?_⟩
  · intro pre m post hpre hm
    constructor
    · unfold addToPortalsSectionAsCallout
      rw [upsertCallout_found pre post hpre hm]
    · exact dropCalloutTail_suffix post
  · intro pre sec rest hclean hpre hsec
    unfold addToPortalsSectionAsCallout
    rw [upsertCallout_eq_none hclean, insertAfterSection_found pre rest hpre hsec]
  · intro doc hclean hsec
    unfold addToPortalsSectionAsCallout
    rw [upsertCallout_eq_none hclean, insertAfterSection_eq_none hsec]

/-- Witness for C7: the replace branch on a minimal entry, the
section-append branch, and the section-creation branch, each at concrete
documents. -/
theorem reconciler_frame_witness :
    (addToPortalsSectionAsCallout
        ["pre".data, "> [!sidenote] Portal p1 • 0".data, "> old".data] "p1".data
        "c".data "t".data =
      "pre".data :: (calloutLines "p1".data "c".data "t".data ++
        dropCalloutTail ["> old".data]) ∧
      dropCalloutTail ["> old".data] <:+ ["> old".data]) ∧
    (addToPortalsSectionAsCallout ["## Portals".data, "tail".data] "p1".data
        "c".data "t".data =
      "## Portals".data :: [] ::
        (calloutLines "p1".data "c".data "t".data ++ [] :: ["tail".data])) ∧
    (addToPortalsSectionAsCallout ["body".data] "p1".data "c".data "t".data =
      "body".data :: [] :: "## Portals".data :: [] ::
        (calloutLines "p1".data "c".data "t".data ++ [[]])) := by
  refine ⟨?_, ?_, ?_⟩
  · exact (reconciler_frame "p1".data "c".data "t".data).1 ["pre".data]
      "> [!sidenote] Portal p1 • 0".data ["> old".data] (by decide) (by decide)
  · exact (reconciler_frame "p1".data "c".data "t".data).2.1 []
      "## Portals".data ["tail".data] (by decide) (by decide) (by decide)
  · exact (reconciler_frame "p1".data "c".data "t".data).2.2 ["body".data]
      (by decide) (by decide)

/-- C7 counterexample: the claim promises that only the span of the entry
for the given id is replaced and that every line outside it is preserved.
Here the entry for bb sits after the entry for aa, separated by a blank
line; committing to aa absorbs the blank line and the whole bb entry into
the replaced span, so the bb header line, untouched by the claimed edit, is
gone from the result. -/
theorem reconciler_frame_counterexample :
    "> [!sidenote] Portal bb • 1".data ∈
      (["> [!sidenote] Portal aa • 1".data, "> a".data, ([] : Line),
        "> [!sidenote] Portal bb • 1".data, "> b".data] : Doc) ∧
    "> [!sidenote] Portal bb • 1".data ∉
      addToPortalsSectionAsCallout
        ["> [!sidenote] Portal aa • 1".data, "> a".data, ([] : Line),
         "> [!sidenote] Portal bb • 1".data, "> b".data]
        "aa".data "new".data "t".data := by decide

/-- C8: missing-entry recovery.  When no line of the document contains the
header key for the requested id, edit re-entry looks the content up, finds
nothing (getYspaceContent is none), surfaces the content-not-found notice
and changes neither the document nor the activePortal, which stays null; and
a commit for an id with no matching entry falls back to creating a fresh
entry, whose title line is present in the reconciled document. -/
theorem missing_entry_recovery (emoji : List Char) (doc : Doc)
    (lineNum emojiIndex : Nat) (id c ts : List Char) :
    (CleanFor id doc →
      openPortalForEditing emoji doc lineNum emojiIndex id none =
        ⟨doc, none, "Portal ".data ++ id ++ " content not found".data⟩) ∧
    (CleanFor id doc →
      calloutTitle id ts ∈ addToPortalsSectionAsCallout doc id c ts) := by
  constructor
  · intro hclean
    unfold openPortalForEditing
    rw [getYspaceContent, findCalloutTail_eq_none hclean]
    rfl
  · intro hclean
    unfold addToPortalsSectionAsCallout
    rw [upsertCallout_eq_none hclean]
    match hins : insertAfterSection c ts id doc with
    | some d => exact title_mem_insertAfterSection hins
    | none =>
      refine List.mem_append.mpr (Or.inr ?_)
      simp [calloutLines]

/-- Witness for C8 on a one-line document with no entry for the id. -/
theorem missing_entry_recovery_witness :
    (openPortalForEditing ['🚪'] ["Doc".data] 0 0 "p1".data none =
      ⟨["Doc".data], none, "Portal ".data ++ "p1".data ++ " content not found".data⟩) ∧
    calloutTitle "p1".data "t".data ∈
      addToPortalsSectionAsCallout ["Doc".data] "p1".data "c".data "t".data :=
  ⟨(missing_entry_recovery ['🚪'] ["Doc".data] 0 0 "p1".data "c".data "t".data).1
      (by decide),
   (missing_entry_recovery ['🚪'] ["Doc".data] 0 0 "p1".data "c".data "t".data).2
      (by decide)⟩

/-- Committing a sequence of contents to the same id, one
addToPortalsSectionAsCallout call per content. -/
def commitN (doc : Doc) (id : List Char) (cs : List (List Char)) (ts : List Char) : Doc :=
  cs.foldl (fun d c => addToPortalsSectionAsCallout d id c ts) doc

theorem cleanFor_of_suffix {id : List Char} {s t : Doc} (hsub : s <:+ t)
    (h : CleanFor id t) : CleanFor id s :=
  fun l hl => h l (hsub.subset hl)

theorem cleanFor_mapped {id c : List Char} (hc : CleanContent id c) :
    CleanFor id ((splitLines c).map (fun l => "> ".data ++ l)) := by
  intro l hl
  obtain ⟨x, hx, he⟩ := List.mem_map.mp hl
  rw [← he]
  exact hc x hx

theorem cleanFor_append {id : List Char} {s t : Doc} (hs : CleanFor id s)
    (ht : CleanFor id t) : CleanFor id (s ++ t) := by
  intro l hl
  rcases List.mem_append.mp hl with h | h
  · exact hs l h
  · exact ht l h

theorem commitN_shape (id ts : List Char) (pre : Doc) (hpre : CleanFor id pre) :
    ∀ (cs : List (List Char)) (cN : List Char) (m : Line) (post : Doc),
      sidenoteHeader id <:+: m → CleanFor id post →
      (∀ c ∈ cs, CleanContent id c) →
      ∃ tail, CleanFor id tail ∧ StoppedTail tail ∧
        commitN (pre ++ m :: post) id (cs ++ [cN]) ts =
          pre ++ (calloutLines id cN ts ++ tail) := by
  intro cs
  induction cs with
  | nil =>
    intro cN m post hm hpost _
    refine ⟨dropCalloutTail post, ?_, dropCalloutTail_stopped post, ?_⟩
    · exact cleanFor_of_suffix (dropCalloutTail_suffix post) hpost
    · show addToPortalsSectionAsCallout (pre ++ m :: post) id cN ts = _
      unfold addToPortalsSectionAsCallout
      rw [upsertCallout_found pre post hpre hm]
  | cons c rest ih =>
    intro cN m post hm hpost hcs
    have hstep : commitN (pre ++ m :: post) id ((c :: rest) ++ [cN]) ts =
        commitN (addToPortalsSectionAsCallout (pre ++ m :: post) id c ts) id
          (rest ++ [cN]) ts := rfl
    rw [hstep]
    have hrepl : addToPortalsSectionAsCallout (pre ++ m :: post) id c ts =
        pre ++ calloutTitle id ts ::
          ((splitLines c).map (fun l => "> ".data ++ l) ++ dropCalloutTail post) := by
      unfold addToPortalsSectionAsCallout
      rw [upsertCallout_found pre post hpre hm, calloutLines_cons]
    rw [hrepl]
    exact ih cN (calloutTitle id ts)
      ((splitLines c).map (fun l => "> ".data ++ l) ++ dropCalloutTail post)
      (header_isInfix_title id ts)
      (cleanFor_append (cleanFor_mapped (hcs c (by simp)))
        (cleanFor_of_suffix (dropCalloutTail_suffix post) hpost))
      (fun x hx => hcs x (by simp [hx]))

/-- C3 (amended): no duplication, under two cleanliness conditions the
original claim lacks: the entry for the id must be the only line of the
document containing the header key (the reconciler matches by substring
inclusion, so another id containing this id as a substring defeats it, as
the counterexample exhibits), and the committed contents must not themselves
contain the header key.  Then committing N = cs.length + 1 trimmed contents
to the existing entry leaves exactly one line containing the header key, and
looking the entry up returns the last committed content. -/
theorem no_duplication (id ts : List Char) (pre : Doc) (m : Line) (post : Doc)
    (cs : List (List Char)) (cN : List Char)
    (hpre : CleanFor id pre) (hm : sidenoteHeader id <:+: m)
    (hpost : CleanFor id post)
    (hcs : ∀ c ∈ cs, CleanContent id c) (hcN : CleanContent id cN)
    (htrim : jsTrim cN = cN) :
    (commitN (pre ++ m :: post) id (cs ++ [cN]) ts).countP
        (fun l => decide (sidenoteHeader id <:+: l)) = 1 ∧
    getYspaceContent (commitN (pre ++ m :: post) id (cs ++ [cN]) ts) id =
      some cN := by
  obtain ⟨tail, hct, hst, he⟩ :=
    commitN_shape id ts pre hpre cs cN m post hm hpost hcs
  rw [he]
  constructor
  · exact countP_header_shape hpre hcN hct
  · rw [getYspaceContent_of_shape id ts cN pre tail hpre
      (collectCallout_stopped hst), htrim]

/-- Witness for C3: two commits (N = 2) to a document holding one existing
entry; the count is one and the lookup returns the second content. -/
theorem no_duplication_witness :
    (commitN ["pre".data, "> [!sidenote] Portal p1 • 0".data, "> old".data]
        "p1".data ["x".data, "y".data] "t".data).countP
        (fun l => decide (sidenoteHeader "p1".data <:+: l)) = 1 ∧
    getYspaceContent
        (commitN ["pre".data, "> [!sidenote] Portal p1 • 0".data, "> old".data]
          "p1".data ["x".data, "y".data] "t".data) "p1".data = some "y".data :=
  no_duplication "p1".data "t".data ["pre".data]
    "> [!sidenote] Portal p1 • 0".data ["> old".data] ["x".data] "y".data
    (by decide) (by decide) (by decide) (by decide) (by decide) (by decide)

/-- C3 counterexample: a single commit (N = 1) of content new to the
existing id x.  The document also holds an entry for xy, whose header line
contains the header key of x as a substring and sits earlier in the
document, so the scan replaces the xy entry and leaves the true x entry in
place: the result holds two lines containing the header key of x instead of
exactly one. -/
theorem no_duplication_counterexample :
    (addToPortalsSectionAsCallout
        ["> [!sidenote] Portal xy • 1".data, "> b".data, "text".data,
         "> [!sidenote] Portal x • 1".data, "> a".data]
        "x".data "new".data "t".data).countP
      (fun l => decide (sidenoteHeader "x".data <:+: l)) = 2 := by decide

/-- C2 (amended): round trip returns the trimmed content.  For a session
whose captured text between marker and cursor is C, committing with
endPortalSession (which stores jsTrim C) and then looking the id up again
with getYspaceContent (the lookup openPortalForEditing splices inline)
yields jsTrim C, not C: the round trip is byte-for-byte exactly when C
carries no leading or trailing whitespace, and a trailing newline of C is
removed.  Interior line breaks and interior blank lines are preserved.  The
cleanliness hypotheses say the commit-time document contains no stray header
key for the id, no related comment lines and no Portals section. -/
theorem roundtrip_trimmed (emoji : List Char) (doc : Doc) (pp cur : Pos)
    (id C freshId ts : List Char)
    (hC : extractPortalContent emoji doc pp cur = C)
    (hne : jsTrim C ≠ [])
    (hid1 : id ≠ []) (hid2 : id ≠ "new".data)
    (hclean : CleanFor id (cleanupCommentedPortalContent
        (replaceRange doc (portalMarker emoji id) pp cur) id))
    (hsec : ∀ l ∈ cleanupCommentedPortalContent
        (replaceRange doc (portalMarker emoji id) pp cur) id,
        jsTrim l ≠ "## Portals".data) :
    getYspaceContent (endPortalSession emoji doc pp id cur freshId ts) id =
      some (jsTrim C) := by
  simp only [endPortalSession]
  rw [hC, if_neg hne, if_neg (not_or.mpr ⟨hid1, hid2⟩)]
  rw [store_then_lookup _ _ _ _ hclean hsec, jsTrim_idem]

/-- Witness for C2 with the already-trimmed content x: the session document
holds the marker for p1 followed by the typed x, the cursor sits at the end,
and the round trip returns the trim of x, which is x itself. -/
theorem roundtrip_trimmed_witness :
    getYspaceContent
        (endPortalSession ['🚪'] ["Hello 🚪[p1]x".data] ⟨0, 6⟩ "p1".data
          ⟨0, 12⟩ "f".data "t".data) "p1".data = some (jsTrim "x".data) :=
  roundtrip_trimmed ['🚪'] ["Hello 🚪[p1]x".data] ⟨0, 6⟩ ⟨0, 12⟩ "p1".data
    "x".data "f".data "t".data (by decide) (by decide) (by decide) (by decide)
    (by decide) (by decide)

/-- C2 counterexample: typing the two characters x-space gives captured
content x-space, but committing stores its trim and re-opening yields the
single character x: the round trip is not byte-for-byte, the trailing
whitespace is removed. -/
theorem roundtrip_counterexample :
    extractPortalContent ['🚪'] ["Hello 🚪[p1]x ".data] ⟨0, 6⟩ ⟨0, 13⟩ =
      "x ".data ∧
    getYspaceContent
        (endPortalSession ['🚪'] ["Hello 🚪[p1]x ".data] ⟨0, 6⟩ "p1".data
          ⟨0, 13⟩ "f".data "t".data) "p1".data = some "x".data ∧
    "x".data ≠ "x ".data :=
  ⟨by decide, by decide, by decide⟩

/-- Specification-side description of the text strictly between a marker-end
position and the cursor, following the words of the claim: for single-line
spans the substring of that line between the two columns; for multi-line
spans the tail of the marker line, the full intervening lines and the head
of the cursor line up to the cursor column, with line breaks preserved and
no trimming. -/
def specBetween (doc : Doc) (mEnd cur : Pos) : List Char :=
  if cur.line = mEnd.line then ((getLineD doc mEnd.line).take cur.ch).drop mEnd.ch
  else
    (getLineD doc mEnd.line).drop mEnd.ch ++ ['\n']
      ++ ((List.range' (mEnd.line + 1) (cur.line - (mEnd.line + 1))).map
          (fun i => getLineD doc i ++ ['\n'])).flatten
      ++ (getLineD doc cur.line).take cur.ch

/-- C5: content extractor exactness.  When the door marker with a wellformed
id actually sits at the marker position and the cursor is at or after the
end of the marker (same line at or past the marker end, or a later line),
extractPortalContent returns exactly the text strictly between the end of
the marker and the cursor as described by specBetween: no marker text, no
text before the marker end or after the cursor, interior line breaks kept,
nothing trimmed. -/
theorem extractor_exactness (emoji : List Char) (doc : Doc) (pp cur : Pos)
    (id rest : List Char) (hid1 : id ≠ []) (hid2 : ']' ∉ id)
    (hmark : (getLineD doc pp.line).drop pp.ch = portalMarker emoji id ++ rest)
    (hcur : (cur.line = pp.line ∧
        pp.ch + (portalMarker emoji id).length ≤ cur.ch) ∨ pp.line < cur.line) :
    extractPortalContent emoji doc pp cur =
      specBetween doc ⟨pp.line, pp.ch + (portalMarker emoji id).length⟩ cur := by
  have hmlen : portalMarkerLength emoji ((getLineD doc pp.line).drop pp.ch) =
      (portalMarker emoji id).length := by
    rw [hmark]
    exact portalMarkerLength_marker emoji id rest hid1 hid2
  rcases hcur with ⟨heq, hle⟩ | hlt
  · simp only [extractPortalContent, specBetween, heq, if_pos rfl]
    rw [hmlen, jsSubstring, Nat.max_eq_right hle, Nat.min_eq_left hle]
    simp only [if_true]
  · have hne : cur.line ≠ pp.line := by omega
    simp only [extractPortalContent, specBetween, if_neg hne]
    rw [hmlen, if_pos hlt]

/-- Witness for C5 on a three-line document with a multi-line span. -/
theorem extractor_exactness_witness :
    extractPortalContent ['🚪'] ["A🚪[i]tail".data, "mid".data, "end".data]
        ⟨0, 1⟩ ⟨2, 2⟩ =
      specBetween ["A🚪[i]tail".data, "mid".data, "end".data]
        ⟨0, 1 + (portalMarker ['🚪'] "i".data).length⟩ ⟨2, 2⟩ :=
  extractor_exactness ['🚪'] ["A🚪[i]tail".data, "mid".data, "end".data]
    ⟨0, 1⟩ ⟨2, 2⟩ "i".data "tail".data (by decide) (by decide) (by decide)
    (Or.inr (by decide))

/-! Lemmas about setLineAt on newline-free lines. -/

theorem getLineD_setLineAt_self {doc : Doc} {n : Nat} {t : List Char}
    (hn : n < doc.length) (ht : '\n' ∉ t) :
    getLineD (setLineAt doc n t) n = t := by
  rw [setLineAt, splitLines_no_nl t ht]
  have hlen : (doc.take n).length = n := by
    rw [List.length_take]
    omega
  rw [List.append_assoc, List.singleton_append, getLineD]
  have hg := getD_append_cons (doc.take n) t (doc.drop (n + 1))
  rwa [hlen] at hg

theorem take_setLineAt {doc : Doc} {n : Nat} {t : List Char}
    (hn : n ≤ doc.length) (ht : '\n' ∉ t) :
    (setLineAt doc n t).take n = doc.take n := by
  rw [setLineAt, splitLines_no_nl t ht, List.append_assoc]
  exact List.take_left' (by rw [List.length_take]; omega)

theorem drop_setLineAt {doc : Doc} {n : Nat} {t : List Char}
    (hn : n ≤ doc.length) (ht : '\n' ∉ t) :
    (setLineAt doc n t).drop (n + 1) = doc.drop (n + 1) := by
  rw [setLineAt, splitLines_no_nl t ht, List.append_assoc]
  have h1 : ((doc.take n ++ ([t] ++ doc.drop (n + 1)))).drop n =
      [t] ++ doc.drop (n + 1) :=
    List.drop_left' (by rw [List.length_take]; omega)
  have h2 := congrArg (List.drop 1) h1
  rw [List.drop_drop] at h2
  simpa using h2

/-- Opening a session over the just-typed trigger and committing at once,
with the cursor exactly where startPortalSession left it. -/
def openThenCommitEmpty (emoji : List Char) (doc : Doc) (cursor : Pos)
    (triggerPos : Nat) (id freshId ts : List Char) : Doc :=
  let r := startPortalSession emoji doc cursor triggerPos id
  endPortalSession emoji r.1 r.2.2.portalPos r.2.2.portalId r.2.1 freshId ts

theorem jsTrim_nil : jsTrim [] = [] := rfl

theorem jsSubstring_self (s : List Char) (a : Nat) : jsSubstring s a a = [] := by
  rw [jsSubstring, Nat.max_self, Nat.min_self]
  exact List.drop_eq_nil_of_le (by rw [List.length_take]; exact Nat.min_le_left _ _)

/-- C4 (amended): empty-capture idempotence holds for a commit with no typed
content.  Opening a session over the typed trigger span and committing with
the cursor still immediately after the marker extracts the empty string and
removes the marker entirely, leaving the document exactly as it would be
with the trigger span deleted, i.e. as before the trigger was typed; no
entry is created since the store is never touched on this branch.  When the
captured content is whitespace-only rather than empty, the commit still
creates no entry and removes the marker, but the typed whitespace itself
stays in the document, which is what the counterexample exhibits. -/
theorem empty_capture_idempotence (emoji : List Char) (doc : Doc) (cursor : Pos)
    (triggerPos : Nat) (id freshId ts : List Char)
    (hl : cursor.line < doc.length)
    (hnl : '\n' ∉ getLineD doc cursor.line)
    (htp : triggerPos ≤ (getLineD doc cursor.line).length)
    (hid1 : id ≠ []) (hid2 : ']' ∉ id) (hid3 : '\n' ∉ id)
    (hem : '\n' ∉ emoji) :
    openThenCommitEmpty emoji doc cursor triggerPos id freshId ts =
      setLineAt doc cursor.line
        ((getLineD doc cursor.line).take triggerPos ++
          (getLineD doc cursor.line).drop cursor.ch) := by
  set line := getLineD doc cursor.line with hline
  set marker := portalMarker emoji id with hmarker
  set newLine := line.take triggerPos ++ marker ++ line.drop cursor.ch with hnew
  have hmne : '\n' ∉ marker := by
    intro h
    rw [hmarker] at h
    simp only [portalMarker, List.mem_append, List.mem_cons,
      List.mem_singleton] at h
    rcases h with h | h | h | h
    · exact hem h
    · exact absurd h (by decide)
    · exact hid3 h
    · exact absurd h (by decide)
  have hnlTake : '\n' ∉ line.take triggerPos := fun h => hnl (List.take_subset _ _ h)
  have hnlDrop : '\n' ∉ line.drop cursor.ch := fun h => hnl (List.drop_subset _ _ h)
  have hnlNew : '\n' ∉ newLine := by
    intro h
    rw [hnew] at h
    rcases List.mem_append.mp h with h1 | h1
    · rcases List.mem_append.mp h1 with h2 | h2
      · exact hnlTake h2
      · exact hmne h2
    · exact hnlDrop h1
  have htklen : (line.take triggerPos).length = triggerPos := by
    rw [List.length_take]
    omega
  have hline1 : getLineD (setLineAt doc cursor.line newLine) cursor.line = newLine :=
    getLineD_setLineAt_self hl hnlNew
  have hdropTrig : newLine.drop triggerPos = marker ++ line.drop cursor.ch := by
    rw [hnew, List.append_assoc]
    exact List.drop_left' htklen
  have hmlen : portalMarkerLength emoji (newLine.drop triggerPos) = marker.length := by
    rw [hdropTrig, hmarker]
    exact portalMarkerLength_marker emoji id _ hid1 hid2
  have htakeTrig : newLine.take triggerPos = line.take triggerPos := by
    rw [hnew, List.append_assoc]
    exact List.take_left' htklen
  have hdropEnd : newLine.drop (triggerPos + marker.length) = line.drop cursor.ch := by
    have h1 := congrArg (List.drop marker.length) hdropTrig
    rw [List.drop_drop, List.drop_left] at h1
    exact h1
  show endPortalSession emoji (setLineAt doc cursor.line newLine)
      ⟨cursor.line, triggerPos⟩ id
      ⟨cursor.line, triggerPos + marker.length⟩ freshId ts = _
  simp only [endPortalSession, extractPortalContent, hline1, if_true]
  rw [hmlen, jsSubstring_self, jsTrim_nil]
  rw [if_pos rfl]
  simp only [replaceRange, hline1]
  rw [htakeTrig, hdropEnd]
  simp only [List.append_nil, List.nil_append]
  rw [take_setLineAt hl.le hnlNew, drop_setLineAt hl.le hnlNew]
  rw [setLineAt]

/-- Witness for C4: a document with one line holding the freshly typed
trigger at columns 2 to 4; the open-and-commit round trip deletes it. -/
theorem empty_capture_idempotence_witness :
    openThenCommitEmpty ['🚪'] ["ab||".data] ⟨0, 4⟩ 2 "p1".data "f".data "t".data =
      setLineAt ["ab||".data] 0 ("ab||".data.take 2 ++ "ab||".data.drop 4) :=
  empty_capture_idempotence ['🚪'] ["ab||".data] ⟨0, 4⟩ 2 "p1".data "f".data
    "t".data (by decide) (by decide) (by decide) (by decide) (by decide)
    (by decide) (by decide)

/-- C4 counterexample: the claim covers every commit whose content is empty
after trimming, but a whitespace-only capture is not a full undo.  Starting
from the document ab with the typed trigger, opening replaces it with the
door marker; typing one space and committing extracts the space, which trims
to empty, so no entry is created and the marker is removed, yet the space
survives: the result differs from the pre-trigger document. -/
theorem empty_capture_counterexample :
    (startPortalSession ['🚪'] ["ab||".data] ⟨0, 4⟩ 2 "p1".data).1 =
      ["ab🚪[p1]".data] ∧
    typeText ["ab🚪[p1]".data] ⟨0, 7⟩ " ".data = (["ab🚪[p1] ".data], ⟨0, 8⟩) ∧
    jsTrim (extractPortalContent ['🚪'] ["ab🚪[p1] ".data] ⟨0, 2⟩ ⟨0, 8⟩) = [] ∧
    endPortalSession ['🚪'] ["ab🚪[p1] ".data] ⟨0, 2⟩ "p1".data ⟨0, 8⟩
      "f".data "t".data = ["ab ".data] ∧
    (["ab ".data] : Doc) ≠ ["ab".data] :=
  ⟨by decide, by decide, by decide, by decide, by decide⟩

end XYPortal
